import Mathlib

/-!
# Verification of the `@kz/patterns` subscription/dispatch engine

Shallow embedding of the observer / pub-sub / mediator core of the
repository.  Receiver collections are modelled as Lean lists (JS arrays in
insertion order); receivers are identified by natural-number ids; the
mutable array operations of the source (`push`, `indexOf`, `splice`,
`length = 0`) become pure list functions returning the updated list.
-/

set_option autoImplicit false

namespace Patterns

/-! ## `TSubscription` (src/unnamed/part_001)

A subscription holds references to an observers array and one observer.
`isDisposed` is `!observers.length` in the source — a test of the whole
collection's emptiness.  `dispose` is `indexOf` followed by `splice` of one
element when the index is in range. -/

/-- `TSubscription.isDisposed`: the source returns `!observers.length`,
i.e. whether the referenced collection is empty. -/
def TSubscription.isDisposed {α : Type} (observers : List α) : Bool :=
  observers.isEmpty

/-- `TSubscription.dispose`: `indexOf` the observer, and when the index is
in range (`>= 0` in JS, i.e. `< length` here since a missing element yields
the out-of-range sentinel) `splice` exactly one element out. -/
def TSubscription.dispose {α : Type} [DecidableEq α]
    (observers : List α) (observer : α) : List α :=
  let index := observers.indexOf observer
  if index < observers.length then observers.eraseIdx index else observers

/-- Unfolding equation for `dispose` on a cons cell. -/
theorem TSubscription.dispose_cons {α : Type} [DecidableEq α]
    (a : α) (l : List α) (r : α) :
    TSubscription.dispose (a :: l) r =
      if a = r then l else a :: TSubscription.dispose l r := by
  by_cases har : a = r
  · simp [TSubscription.dispose, List.indexOf_cons, har]
  · have hne : (a == r) = false := by simp [har]
    simp only [TSubscription.dispose, List.indexOf_cons, hne, cond_false, har, if_false]
    by_cases h : l.indexOf r < l.length
    · simp [Nat.succ_lt_succ h, List.eraseIdx, h]
    · simp [h, Nat.succ_lt_succ_iff]

theorem TSubscription.dispose_nil {α : Type} [DecidableEq α] (r : α) :
    TSubscription.dispose ([] : List α) r = [] := rfl

/-- Disposing when the observer is absent is a no-op. -/
theorem TSubscription.dispose_of_not_mem {α : Type} [DecidableEq α]
    {l : List α} {r : α} (h : r ∉ l) :
    TSubscription.dispose l r = l := by
  induction l with
  | nil => rfl
  | cons a l ih =>
    rw [TSubscription.dispose_cons]
    have har : a ≠ r := fun e => h (e ▸ List.mem_cons_self a l)
    have hr : r ∉ l := fun m => h (List.mem_cons_of_mem a m)
    simp [har, ih hr]

/-- Every member of the disposed collection was a member before. -/
theorem TSubscription.mem_dispose {α : Type} [DecidableEq α]
    {l : List α} {r x : α} (h : x ∈ TSubscription.dispose l r) : x ∈ l := by
  induction l with
  | nil => simp [TSubscription.dispose_nil] at h
  | cons a l ih =>
    rw [TSubscription.dispose_cons] at h
    by_cases har : a = r
    · simp [har] at h
      exact List.mem_cons_of_mem a h
    · simp [har] at h
      rcases h with h | h
      · simp [h]
      · exact List.mem_cons_of_mem a (ih h)

/-- A member other than the disposed observer survives disposal. -/
theorem TSubscription.mem_dispose_of_ne {α : Type} [DecidableEq α]
    {l : List α} {r x : α} (hx : x ∈ l) (hne : x ≠ r) :
    x ∈ TSubscription.dispose l r := by
  induction l with
  | nil => cases hx
  | cons a l ih =>
    rw [TSubscription.dispose_cons]
    by_cases har : a = r
    · subst har
      rcases List.mem_cons.mp hx with h | h
      · exact absurd h hne
      · simpa using h
    · rcases List.mem_cons.mp hx with h | h
      · simp [har, h]
      · simp [har]
        exact Or.inr (ih h)

/-- When the observer occurs at most once, it is gone after disposal. -/
theorem TSubscription.not_mem_dispose {α : Type} [DecidableEq α]
    {l : List α} {r : α} (h : l.count r ≤ 1) :
    r ∉ TSubscription.dispose l r := by
  induction l with
  | nil => simp [TSubscription.dispose_nil]
  | cons a l ih =>
    rw [TSubscription.dispose_cons]
    by_cases har : a = r
    · subst har
      have hz : l.count a = 0 := by
        have hh := h
        rw [List.count_cons_self a l] at hh
        omega
      rw [if_pos rfl]
      exact List.count_eq_zero.mp hz
    · have hc : l.count r ≤ 1 := by
        rw [List.count_cons_of_ne (fun e => har e.symm)] at h
        exact h
      rw [if_neg har]
      intro hmem
      rcases List.mem_cons.mp hmem with e | e
      · exact har e.symm
      · exact ih hc e

/-! ## Claim C1 -/

/-- C1 counterexample: the claim says `s.isDisposed` is true exactly when the
receiver is absent from the collection, and in particular true immediately
after `s.dispose()` even while other receivers remain.  On the code
(`isDisposed` is `!observers.length`) this is false: dispose receiver `1`
from the collection `[1, 2]`; receiver `1` is absent afterwards, yet
`isDisposed` reports `false` because receiver `2` still remains. -/
theorem C1_counterexample :
    (1 ∉ TSubscription.dispose [1, 2] 1) ∧
    TSubscription.isDisposed (TSubscription.dispose [1, 2] 1) = false := by
  decide

/-- C1 (amended): `s.isDisposed` is true exactly when the referenced
collection is empty, regardless of the receiver's membership; immediately
after `s.dispose()` it reports `false` whenever another receiver remains
registered with the same emitter, and `true` when the disposed receiver was
the only one. -/
theorem C1_amended (l : List Nat) (r r' : Nat) (hmem : r' ∈ l) (hne : r' ≠ r) :
    (TSubscription.isDisposed l = true ↔ l = []) ∧
    TSubscription.isDisposed (TSubscription.dispose l r) = false ∧
    TSubscription.isDisposed (TSubscription.dispose [r] r) = true := by
  refine ⟨by simp [TSubscription.isDisposed, List.isEmpty_iff], ?_, ?_⟩
  · have hx : r' ∈ TSubscription.dispose l r :=
      TSubscription.mem_dispose_of_ne hmem hne
    cases hE : TSubscription.isDisposed (TSubscription.dispose l r)
    · rfl
    · exfalso
      have hnil : TSubscription.dispose l r = [] := by
        simpa [TSubscription.isDisposed, List.isEmpty_iff] using hE
      rw [hnil] at hx
      cases hx
  · simp [TSubscription.dispose, TSubscription.isDisposed, List.indexOf_cons]

/-- C1 witness: the amended statement at the concrete collection `[1, 2]`,
disposing receiver `1` while receiver `2` remains. -/
theorem C1_witness :
    ((2 ∈ [1, 2]) ∧ (2 : Nat) ≠ 1) ∧
    ((TSubscription.isDisposed [1, 2] = true ↔ ([1, 2] : List Nat) = []) ∧
      TSubscription.isDisposed (TSubscription.dispose [1, 2] 1) = false ∧
      TSubscription.isDisposed (TSubscription.dispose [1] 1) = true) :=
  ⟨by decide, C1_amended [1, 2] 1 2 (by decide) (by decide)⟩

/-! ## `TBaseObservable.publish`, non-reentrant receivers
(src/observe/t_base_observable.ts)

`publish(value)` runs `observer.next(value)` for each observer of the live
array, in order.  With receivers whose `next` does not mutate the
collection, the pass is the list of delivery events in insertion order.
(The self-disposing reentrant case is modelled separately below.) -/

/-- `TBaseObservable.publish` with non-mutating receiver callbacks: the
delivery events `(observer, value)` produced by one pass, in insertion
order. -/
def TBaseObservable.publishEvents (observers : List Nat) (v : Nat) :
    List (Nat × Nat) :=
  observers.map (fun o => (o, v))

/-! ## Claim C6 -/

/-- C6 (confirmed): `TSubscription.dispose` never raises (it is modelled by
a total function: `indexOf` plus a guarded `splice` have no failing case);
under the emitter invariant that a receiver is registered at most once, a
second `dispose()` is a no-op, a `dispose()` after `complete()` emptied the
collection is a no-op, and a publish after `dispose()` produces no delivery
event for the removed receiver. -/
theorem C6_dispose_idempotent_safe (l : List Nat) (r v : Nat)
    (h : l.count r ≤ 1) :
    TSubscription.dispose (TSubscription.dispose l r) r =
      TSubscription.dispose l r ∧
    TSubscription.dispose ([] : List Nat) r = [] ∧
    (r, v) ∉ TBaseObservable.publishEvents (TSubscription.dispose l r) v := by
  refine ⟨?_, rfl, ?_⟩
  · exact TSubscription.dispose_of_not_mem (TSubscription.not_mem_dispose h)
  · intro hmem
    simp only [TBaseObservable.publishEvents, List.mem_map] at hmem
    rcases hmem with ⟨o, ho, he⟩
    have : o = r := congrArg Prod.fst he
    exact TSubscription.not_mem_dispose h (this ▸ ho)

/-- C6 witness: the concrete collection `[1, 2]`, disposing receiver `1`
and publishing value `5`. -/
theorem C6_witness :
    ([1, 2].count 1 ≤ 1) ∧
    (TSubscription.dispose (TSubscription.dispose [1, 2] 1) 1 =
        TSubscription.dispose [1, 2] 1 ∧
      TSubscription.dispose ([] : List Nat) 1 = [] ∧
      (1, 5) ∉ TBaseObservable.publishEvents (TSubscription.dispose [1, 2] 1) 5) :=
  ⟨by decide, C6_dispose_idempotent_safe [1, 2] 1 5 (by decide)⟩

/-! ## `AbstractDisposable` (src/dispose/abstract_disposable.ts)

`dispose()` returns immediately when already disposed; otherwise it calls
the `onDispose` hook inside `try { } finally { this._isDisposed = true }`,
so the disposed flag is set even when the hook raises and the exception
propagates to the caller.  The state carries the flag and the number of
`onDispose` invocations; the returned `Bool` is whether an exception
escaped to the caller. -/

structure AbstractDisposable where
  isDisposed : Bool
  onDisposeCalls : Nat
deriving DecidableEq

/-- `AbstractDisposable.dispose`, with the behavior of the `onDispose` hook
given by `onDisposeRaises`.  Returns the post state and whether an
exception propagated. -/
def AbstractDisposable.dispose (s : AbstractDisposable)
    (onDisposeRaises : Bool) : AbstractDisposable × Bool :=
  if s.isDisposed then (s, false)
  else ({ isDisposed := true, onDisposeCalls := s.onDisposeCalls + 1 },
    onDisposeRaises)

/-! ## Claim C10 -/

/-- C10 (confirmed): when the `onDispose` hook raises, `dispose()` still
marks the instance disposed (the `finally` block runs), the exception
propagates to the caller, the hook ran exactly once more, and a subsequent
`dispose()` returns immediately without invoking the hook again and
without raising. -/
theorem C10_dispose_finally (s : AbstractDisposable)
    (h : s.isDisposed = false) :
    (AbstractDisposable.dispose s true).1.isDisposed = true ∧
    (AbstractDisposable.dispose s true).2 = true ∧
    (AbstractDisposable.dispose s true).1.onDisposeCalls =
      s.onDisposeCalls + 1 ∧
    AbstractDisposable.dispose (AbstractDisposable.dispose s true).1 true =
      ((AbstractDisposable.dispose s true).1, false) := by
  simp [AbstractDisposable.dispose, h]

/-- C10 witness: a fresh instance (not disposed, hook not yet run) whose
hook raises. -/
theorem C10_witness :
    ((⟨false, 0⟩ : AbstractDisposable).isDisposed = false) ∧
    ((AbstractDisposable.dispose ⟨false, 0⟩ true).1.isDisposed = true ∧
      (AbstractDisposable.dispose ⟨false, 0⟩ true).2 = true ∧
      (AbstractDisposable.dispose ⟨false, 0⟩ true).1.onDisposeCalls = 0 + 1 ∧
      AbstractDisposable.dispose
          (AbstractDisposable.dispose ⟨false, 0⟩ true).1 true =
        ((AbstractDisposable.dispose ⟨false, 0⟩ true).1, false)) :=
  ⟨rfl, C10_dispose_finally ⟨false, 0⟩ rfl⟩

/-! ## `TBaseMediator` (src/mediator/t_base_mediator.ts)

The mediator's receivers come in three structural shapes, which the source
classifies by probing for properties: a plain observer has no `topics`
property; a subscriber has `topics` but no `participantId`; a participant
has both.  Topics, payloads and identities are modelled as naturals. -/

inductive MRcv where
  | obs (i : Nat)
  | sub (i : Nat) (topics : List Nat)
  | part (i : Nat) (topics : List Nat) (participantId : Nat)
deriving DecidableEq

/-- Identity of a mediator receiver (models JS object identity). -/
def MRcv.id : MRcv → Nat
  | .obs i => i
  | .sub i _ => i
  | .part i _ _ => i

/-- `TBaseMediator.next` (routing): for each registered receiver, in
insertion order, the source branches on `'topics' in observer` and
`'participantId' in observer`, delivering `[topic, message]` to plain
observers unconditionally, to subscribers when `topics.includes(topic)`,
and to participants when additionally `participantId !== sender`.  The
result is the list of delivery events `(receiver id, topic, message)`. -/
def TBaseMediator.next : List MRcv → Nat → Nat → Nat → List (Nat × Nat × Nat)
  | [], _, _, _ => []
  | .obs i :: rest, sender, topic, message =>
      (i, topic, message) :: TBaseMediator.next rest sender topic message
  | .sub i topics :: rest, sender, topic, message =>
      if topics.contains topic then
        (i, topic, message) :: TBaseMediator.next rest sender topic message
      else
        TBaseMediator.next rest sender topic message
  | .part i topics participantId :: rest, sender, topic, message =>
      if topics.contains topic && participantId != sender then
        (i, topic, message) :: TBaseMediator.next rest sender topic message
      else
        TBaseMediator.next rest sender topic message

/-- Eligibility as the spec words it (formalised from the spec for the C2
refinement): plain observers always receive; subscribers receive iff the
topic is in their filter; participants receive iff the topic is in their
filter and their identity differs from the sender. -/
def TBaseMediator.eligibleSpec (sender topic : Nat) : MRcv → Bool
  | .obs _ => true
  | .sub _ topics => topics.contains topic
  | .part _ topics participantId =>
      topics.contains topic && participantId != sender

/-- The routing pass delivers exactly to the spec-eligible receivers, in
insertion order. -/
theorem TBaseMediator.next_eq_filter_map (l : List MRcv)
    (sender topic message : Nat) :
    TBaseMediator.next l sender topic message =
      (l.filter (TBaseMediator.eligibleSpec sender topic)).map
        (fun r => (r.id, topic, message)) := by
  induction l with
  | nil => rfl
  | cons r rest ih =>
    cases r with
    | obs i => simp [TBaseMediator.next, TBaseMediator.eligibleSpec, ih, MRcv.id]
    | sub i topics =>
      by_cases h : topic ∈ topics <;>
        simp [TBaseMediator.next, TBaseMediator.eligibleSpec, h, ih, MRcv.id,
          List.filter_cons]
    | part i topics participantId =>
      by_cases h1 : topic ∈ topics <;> by_cases h2 : participantId = sender <;>
        simp [TBaseMediator.next, TBaseMediator.eligibleSpec, h1, h2, ih,
          MRcv.id, List.filter_cons]

/-! ## Claim C2 -/

/-- C2 (confirmed): one `mediator.next([sender, topic, payload])` pass
delivers `(topic, payload)` to exactly the eligible receivers, in
insertion order: plain observers always, subscribers iff the topic is in
their filter, participants iff the topic is in their filter and their
`participantId` differs from the sender — so a participant never receives
its own message while every other eligible receiver does. -/
theorem C2_routing (l : List MRcv) (sender topic message : Nat) :
    TBaseMediator.next l sender topic message =
      (l.filter (TBaseMediator.eligibleSpec sender topic)).map
        (fun r => (r.id, topic, message)) ∧
    (∀ i, TBaseMediator.eligibleSpec sender topic (.obs i) = true) ∧
    (∀ i ts, TBaseMediator.eligibleSpec sender topic (.sub i ts) =
      ts.contains topic) ∧
    (∀ i ts pid, TBaseMediator.eligibleSpec sender topic (.part i ts pid) =
      (ts.contains topic && pid != sender)) :=
  ⟨TBaseMediator.next_eq_filter_map l sender topic message,
    fun _ => rfl, fun _ _ => rfl, fun _ _ _ => rfl⟩

/-- `TBaseMediator.subscribe`, effect on the mediator's receiver
collection: the source appends (`push`) only when
`!observers.includes(observer)`; when the receiver is already present the
collection is left unchanged.  (The disposable the call returns, and the
re-entrant `participant.subscribe(this)` call for participant receivers,
touch the participant's own state and are modelled separately.) -/
def TBaseMediator.subscribe (observers : List MRcv) (observer : MRcv) :
    List MRcv :=
  if observers.contains observer then observers else observers ++ [observer]

/-- Every delivery event of a routing pass carries the id of some
registered receiver. -/
theorem TBaseMediator.mem_next_id {l : List MRcv} {sender topic message : Nat}
    {e : Nat × Nat × Nat} (h : e ∈ TBaseMediator.next l sender topic message) :
    e.1 ∈ l.map MRcv.id := by
  rw [TBaseMediator.next_eq_filter_map] at h
  rcases List.mem_map.mp h with ⟨r, hr, he⟩
  exact List.mem_map.mpr ⟨r, List.mem_of_mem_filter hr, by rw [← he]⟩

/-! ## Claim C4 -/

/-- C4 (confirmed): subscribing the same receiver twice leaves exactly one
entry for it in the mediator's collection, and a subsequent broadcast
`next([sender, topic, payload])` produces exactly one delivery event for
that receiver when it is eligible and none otherwise — never two. -/
theorem C4_no_duplicate_registration (l : List MRcv) (o : MRcv)
    (sender topic message : Nat)
    (h1 : o ∉ l) (h2 : o.id ∉ l.map MRcv.id) :
    (TBaseMediator.subscribe (TBaseMediator.subscribe l o) o).count o = 1 ∧
    (TBaseMediator.next (TBaseMediator.subscribe (TBaseMediator.subscribe l o) o)
        sender topic message).count (o.id, topic, message) =
      (if TBaseMediator.eligibleSpec sender topic o then 1 else 0) := by
  have hsub1 : TBaseMediator.subscribe l o = l ++ [o] := by
    simp [TBaseMediator.subscribe, h1]
  have hsub2 : TBaseMediator.subscribe (l ++ [o]) o = l ++ [o] := by
    simp [TBaseMediator.subscribe]
  rw [hsub1, hsub2]
  constructor
  · rw [List.count_append]
    rw [List.count_eq_zero.mpr h1]
    simp
  · rw [TBaseMediator.next_eq_filter_map]
    rw [List.filter_append, List.map_append, List.count_append]
    have hzero :
        ((l.filter (TBaseMediator.eligibleSpec sender topic)).map
          (fun r => (r.id, topic, message))).count (o.id, topic, message) = 0 := by
      rw [List.count_eq_zero]
      intro hmem
      rcases List.mem_map.mp hmem with ⟨r, hr, he⟩
      have hid : r.id = o.id := congrArg Prod.fst he
      exact h2 (List.mem_map.mpr ⟨r, List.mem_of_mem_filter hr, hid⟩)
    rw [hzero, Nat.zero_add]
    by_cases h : TBaseMediator.eligibleSpec sender topic o <;>
      simp [List.filter_cons, h]

/-- C4 witness: a mediator holding one subscriber, then a participant
subscribed twice; the broadcast matches its topic filter and comes from a
different sender, so it is delivered exactly once. -/
theorem C4_witness :
    ((MRcv.part 2 [7] 11 ∉ [MRcv.sub 1 [7]]) ∧
      (MRcv.part 2 [7] 11).id ∉ [MRcv.sub 1 [7]].map MRcv.id) ∧
    ((TBaseMediator.subscribe
        (TBaseMediator.subscribe [MRcv.sub 1 [7]] (MRcv.part 2 [7] 11))
        (MRcv.part 2 [7] 11)).count (MRcv.part 2 [7] 11) = 1 ∧
      (TBaseMediator.next
          (TBaseMediator.subscribe
            (TBaseMediator.subscribe [MRcv.sub 1 [7]] (MRcv.part 2 [7] 11))
            (MRcv.part 2 [7] 11)) 12 7 99).count ((MRcv.part 2 [7] 11).id, 7, 99) =
        (if TBaseMediator.eligibleSpec 12 7 (MRcv.part 2 [7] 11) then 1 else 0)) :=
  ⟨by decide,
    C4_no_duplicate_registration [MRcv.sub 1 [7]] (MRcv.part 2 [7] 11) 12 7 99
      (by decide) (by decide)⟩

/-! ## Fan-out with raising receivers (claim C7)

`TBaseObservable.publish` is a bare `for`-loop over the observers calling
`observer.next(value)` with no `try`/`catch`; `TBaseMediator.next` is a
bare `observers.forEach` likewise.  Receivers are paired with a flag
saying whether their `next` raises.  A pass returns the ids whose `next`
was invoked and, when a receiver raised, the id it raised from (`some`
models the exception escaping synchronously to the caller). -/

/-- `TBaseObservable.publish` with possibly-raising receiver callbacks. -/
def TBaseObservable.publishExc : List (Nat × Bool) → List Nat × Option Nat
  | [] => ([], none)
  | (i, raises) :: rest =>
    if raises then ([i], some i)
    else
      let p := TBaseObservable.publishExc rest
      (i :: p.1, p.2)

/-- `TBaseMediator.next` with possibly-raising receiver callbacks, same
branch structure as the routing pass. -/
def TBaseMediator.nextExc : List (MRcv × Bool) → Nat → Nat → List Nat × Option Nat
  | [], _, _ => ([], none)
  | (.obs i, raises) :: rest, sender, topic =>
      if raises then ([i], some i)
      else
        let p := TBaseMediator.nextExc rest sender topic
        (i :: p.1, p.2)
  | (.sub i topics, raises) :: rest, sender, topic =>
      if topics.contains topic then
        if raises then ([i], some i)
        else
          let p := TBaseMediator.nextExc rest sender topic
          (i :: p.1, p.2)
      else TBaseMediator.nextExc rest sender topic
  | (.part i topics participantId, raises) :: rest, sender, topic =>
      if topics.contains topic && participantId != sender then
        if raises then ([i], some i)
        else
          let p := TBaseMediator.nextExc rest sender topic
          (i :: p.1, p.2)
      else TBaseMediator.nextExc rest sender topic

/-- One step of the mediator pass, collapsed through the eligibility
predicate. -/
theorem TBaseMediator.nextExc_cons (r : MRcv) (raises : Bool)
    (rest : List (MRcv × Bool)) (sender topic : Nat) :
    TBaseMediator.nextExc ((r, raises) :: rest) sender topic =
      if TBaseMediator.eligibleSpec sender topic r then
        if raises then ([r.id], some r.id)
        else
          ((TBaseMediator.nextExc rest sender topic).1.cons r.id,
            (TBaseMediator.nextExc rest sender topic).2)
      else TBaseMediator.nextExc rest sender topic := by
  cases r with
  | obs i => simp [TBaseMediator.nextExc, TBaseMediator.eligibleSpec, MRcv.id]
  | sub i topics =>
    by_cases h : topics.contains topic <;>
      simp [TBaseMediator.nextExc, TBaseMediator.eligibleSpec, h, MRcv.id]
  | part i topics participantId =>
    by_cases h : (topics.contains topic && participantId != sender) = true <;>
      simp [TBaseMediator.nextExc, TBaseMediator.eligibleSpec, h, MRcv.id]

/-- Observable fan-out aborts at the first raising receiver. -/
theorem TBaseObservable.publishExc_append (A : List (Nat × Bool)) (i : Nat)
    (B : List (Nat × Bool)) (hA : ∀ x ∈ A, x.2 = false) :
    TBaseObservable.publishExc (A ++ (i, true) :: B) =
      (A.map Prod.fst ++ [i], some i) := by
  induction A with
  | nil => simp [TBaseObservable.publishExc]
  | cons x A' ih =>
    have hx : x.2 = false := hA x (List.mem_cons_self x A')
    have hA' : ∀ y ∈ A', y.2 = false := fun y hy =>
      hA y (List.mem_cons_of_mem x hy)
    cases x with
    | mk xi xr =>
      simp only at hx
      subst hx
      simp [TBaseObservable.publishExc, ih hA']

/-- Mediator fan-out aborts at the first raising (eligible) receiver. -/
theorem TBaseMediator.nextExc_append (A : List (MRcv × Bool)) (r : MRcv)
    (B : List (MRcv × Bool)) (sender topic : Nat)
    (hA : ∀ x ∈ A, x.2 = false)
    (hr : TBaseMediator.eligibleSpec sender topic r = true) :
    TBaseMediator.nextExc (A ++ (r, true) :: B) sender topic =
      ((A.filter (fun x => TBaseMediator.eligibleSpec sender topic x.1)).map
          (fun x => x.1.id) ++ [r.id],
        some r.id) := by
  induction A with
  | nil => simp [TBaseMediator.nextExc_cons, hr]
  | cons x A' ih =>
    have hx : x.2 = false := hA x (List.mem_cons_self x A')
    have hA' : ∀ y ∈ A', y.2 = false := fun y hy =>
      hA y (List.mem_cons_of_mem x hy)
    cases x with
    | mk xr xraises =>
      simp only at hx
      subst hx
      rw [List.cons_append, TBaseMediator.nextExc_cons]
      by_cases h : TBaseMediator.eligibleSpec sender topic xr <;>
        simp [h, ih hA', List.filter_cons]

/-! ## Claim C7 -/

/-- C7 (confirmed): when a receiver's `next` raises during fan-out —
`TBaseObservable.publish` or `TBaseMediator.next` — the core does not
catch it: receivers before the raiser were invoked, the raiser was
invoked, no receiver after it in that pass is notified, and the exception
propagates synchronously to the immediate caller. -/
theorem C7_exception_aborts_fanout :
    (∀ (A : List (Nat × Bool)) (i : Nat) (B : List (Nat × Bool)),
      (∀ x ∈ A, x.2 = false) →
      TBaseObservable.publishExc (A ++ (i, true) :: B) =
        (A.map Prod.fst ++ [i], some i)) ∧
    (∀ (A : List (MRcv × Bool)) (r : MRcv) (B : List (MRcv × Bool))
      (sender topic : Nat),
      (∀ x ∈ A, x.2 = false) →
      TBaseMediator.eligibleSpec sender topic r = true →
      TBaseMediator.nextExc (A ++ (r, true) :: B) sender topic =
        ((A.filter (fun x => TBaseMediator.eligibleSpec sender topic x.1)).map
            (fun x => x.1.id) ++ [r.id],
          some r.id)) :=
  ⟨TBaseObservable.publishExc_append, TBaseMediator.nextExc_append⟩

/-- C7 witness: observable pass `[1 ok, 2 raising, 3 unreached]`, and a
mediator pass with one well-behaved observer ahead of a raising subscriber
and an unreached participant behind it. -/
theorem C7_witness :
    TBaseObservable.publishExc [(1, false), (2, true), (3, false)] =
      ([1, 2], some 2) ∧
    TBaseMediator.nextExc
        [(MRcv.obs 1, false), (MRcv.sub 2 [5], true), (MRcv.part 3 [5] 8, false)]
        9 5 = ([1, 2], some 2) := by
  constructor
  · have h := C7_exception_aborts_fanout.1 [(1, false)] 2 [(3, false)]
      (by decide)
    simpa using h
  · have h := C7_exception_aborts_fanout.2 [(MRcv.obs 1, false)]
      (MRcv.sub 2 [5]) [(MRcv.part 3 [5] 8, false)] 9 5 (by decide) (by decide)
    simpa [TBaseMediator.eligibleSpec, MRcv.id] using h

/-! ## `TAbstractParticipant` (src/mediator/t_abstract_participant.ts)

A participant tracks the mediators it publishes to in its own `mediators`
array (mediator ids here).  `subscribe(mediator)` adds the mediator when
absent and re-enters `mediator.subscribe(this)` (net effect on the
mediator's collection: append `this` when absent); it always returns
`new TSubscription(this.mediators, mediator)` — a subscription over the
participant's own list.  `publish(message)` calls
`mediator.next([participantId, ...message])` on every tracked mediator. -/

/-- Structural participant test of the source:
`'subscribe' in observer && 'publish' in observer`.  Among the receiver
shapes of the repository only participants expose `publish`. -/
def isParticipantLike : MRcv → Bool
  | .part _ _ _ => true
  | _ => false

/-- Which disposable `TBaseMediator.subscribe` returns, by source branch:
for a newly added participant, the disposable produced by the
participant's own `subscribe` call (a subscription over the participant's
mediator list); for a newly added non-participant, a fresh local
`TSubscription`; for an already-present participant, the composite of
both; otherwise a fresh local `TSubscription`. -/
inductive MedSubscribeResult where
  | participantLink
  | localSubscription
  | composite
deriving DecidableEq

/-- Return-value branch structure of `TBaseMediator.subscribe`. -/
def TBaseMediator.subscribeResult (observers : List MRcv) (observer : MRcv) :
    MedSubscribeResult :=
  if observers.contains observer then
    if isParticipantLike observer then .composite else .localSubscription
  else
    if isParticipantLike observer then .participantLink else .localSubscription

/-- `TAbstractParticipant.subscribe`: joint effect on the participant's
tracked-mediator list and the mediator's receiver collection. -/
def TAbstractParticipant.subscribe (mediators : List Nat)
    (mObservers : List MRcv) (self : MRcv) (mediator : Nat) :
    List Nat × List MRcv :=
  if mediators.contains mediator then (mediators, mObservers)
  else (mediators ++ [mediator], TBaseMediator.subscribe mObservers self)

/-- `TAbstractParticipant.publish`: the calls
`mediator.next([participantId, topic, message])` made, one per tracked
mediator, in order. -/
def TAbstractParticipant.publishTargets (mediators : List Nat)
    (participantId topic message : Nat) : List (Nat × Nat × Nat × Nat) :=
  mediators.map (fun m => (m, participantId, topic, message))

/-! ## Claim C8 -/

/-- C8 (confirmed): for a newly added participant,
`mediator.subscribe(participant)` returns the disposable from the
participant's own `subscribe` — a subscription over the participant's
tracked-mediator list.  Disposing it removes the mediator from that list,
so a later `participant.publish` no longer calls that mediator's `next`;
but the participant stays in the mediator's receiver collection, which the
disposal leaves untouched. -/
theorem C8_link_disposal_frame (ms : List Nat) (mObs : List MRcv)
    (self : MRcv) (mediator participantId topic message : Nat)
    (hm : mediator ∉ ms) (hs : self ∉ mObs)
    (hp : isParticipantLike self = true) :
    TBaseMediator.subscribeResult mObs self = .participantLink ∧
    mediator ∉ TSubscription.dispose
      (TAbstractParticipant.subscribe ms mObs self mediator).1 mediator ∧
    (mediator, participantId, topic, message) ∉
      TAbstractParticipant.publishTargets
        (TSubscription.dispose
          (TAbstractParticipant.subscribe ms mObs self mediator).1 mediator)
        participantId topic message ∧
    (TAbstractParticipant.subscribe ms mObs self mediator).2 =
      mObs ++ [self] ∧
    self ∈ (TAbstractParticipant.subscribe ms mObs self mediator).2 := by
  have hms : (TAbstractParticipant.subscribe ms mObs self mediator).1 =
      ms ++ [mediator] := by
    simp [TAbstractParticipant.subscribe, hm]
  have hcount : (ms ++ [mediator]).count mediator ≤ 1 := by
    rw [List.count_append, List.count_eq_zero.mpr hm]
    simp
  have hgone : mediator ∉ TSubscription.dispose
      (TAbstractParticipant.subscribe ms mObs self mediator).1 mediator := by
    rw [hms]
    exact TSubscription.not_mem_dispose hcount
  refine ⟨?_, hgone, ?_, ?_, ?_⟩
  · simp [TBaseMediator.subscribeResult, hs, hp]
  · intro hmem
    simp only [TAbstractParticipant.publishTargets, List.mem_map] at hmem
    rcases hmem with ⟨m, hmm, he⟩
    have hme : m = mediator := congrArg (fun q => q.1) he
    exact hgone (hme ▸ hmm)
  · simp [TAbstractParticipant.subscribe, hm, TBaseMediator.subscribe, hs]
  · simp [TAbstractParticipant.subscribe, hm, TBaseMediator.subscribe, hs]

/-- C8 witness: a fresh participant (id 2, topic 7, identity 11) linking
to mediator 6 whose collection holds one observer. -/
theorem C8_witness :
    ((6 ∉ ([] : List Nat)) ∧ (MRcv.part 2 [7] 11 ∉ [MRcv.obs 1]) ∧
      isParticipantLike (MRcv.part 2 [7] 11) = true) ∧
    (TBaseMediator.subscribeResult [MRcv.obs 1] (MRcv.part 2 [7] 11) =
        .participantLink ∧
      6 ∉ TSubscription.dispose
        (TAbstractParticipant.subscribe [] [MRcv.obs 1] (MRcv.part 2 [7] 11) 6).1 6 ∧
      (6, 11, 7, 99) ∉
        TAbstractParticipant.publishTargets
          (TSubscription.dispose
            (TAbstractParticipant.subscribe [] [MRcv.obs 1]
              (MRcv.part 2 [7] 11) 6).1 6) 11 7 99 ∧
      (TAbstractParticipant.subscribe [] [MRcv.obs 1] (MRcv.part 2 [7] 11) 6).2 =
        [MRcv.obs 1] ++ [MRcv.part 2 [7] 11] ∧
      MRcv.part 2 [7] 11 ∈
        (TAbstractParticipant.subscribe [] [MRcv.obs 1] (MRcv.part 2 [7] 11) 6).2) :=
  ⟨⟨by decide, by decide, by decide⟩,
    C8_link_disposal_frame [] [MRcv.obs 1] (MRcv.part 2 [7] 11) 6 11 7 99
      (by decide) (by decide) (by decide)⟩

/-! ## Claim C9 -/

/-- `TBaseMediator.subscribe` when the incoming receiver is itself a
`TBaseMediator` (mediators expose both `subscribe` and `publish`, so the
structural participant test succeeds).  The world maps each mediator id to
its observers list.  Newly-added branch: push the observer, then call
`observer.subscribe(this)` — which is again `TBaseMediator.subscribe`
with the roles swapped; already-present branch: call
`observer.subscribe(this)` unconditionally before building the composite
disposable.  `fuel` bounds the call depth; `none` means the bound was hit
without returning. -/
def TBaseMediator.subscribeMediators :
    Nat → (Nat → List Nat) → Nat → Nat → Option (Nat → List Nat)
  | 0, _, _, _ => none
  | fuel + 1, w, self, observer =>
    if (w self).contains observer then
      TBaseMediator.subscribeMediators fuel w observer self
    else
      TBaseMediator.subscribeMediators fuel
        (fun m => if m = self then w self ++ [observer] else w m) observer self

/-- C9 (confirmed): `TBaseMediator.subscribe` does not terminate when the
receiver is itself a `TBaseMediator` (including the mediator itself): both
branches re-invoke the other mediator's `subscribe` with no decreasing
measure, so no call depth suffices — the model returns `none` for every
fuel, every world, and every pair of mediators. -/
theorem C9_subscribe_diverges (fuel : Nat) (w : Nat → List Nat)
    (self observer : Nat) :
    TBaseMediator.subscribeMediators fuel w self observer = none := by
  induction fuel generalizing w self observer with
  | zero => rfl
  | succ fuel ih =>
    rw [TBaseMediator.subscribeMediators]
    by_cases h : (w self).contains observer <;> simp [h, ih]

/-! ## Live-view iteration of `TBaseObservable.publish` / `complete`
(src/observe/t_base_observable.ts, src/unnamed/part_001)

`publish` runs `for (const observer of observers) observer.next(value)`
over the live array.  The JS array iterator keeps a cursor `i`: it yields
`observers[i]` and increments `i`, re-reading the (possibly mutated) array
each step.  A receiver whose callback disposes its own subscription
splices itself out at its current position, shifting every later element
one slot left under the cursor.  `Rcv.selfDispose` says whether the
receiver's callback does that. -/

structure Rcv where
  id : Nat
  selfDispose : Bool
deriving DecidableEq

/-- Disposal never lengthens the collection. -/
theorem TSubscription.dispose_length_le {α : Type} [DecidableEq α]
    (l : List α) (r : α) :
    (TSubscription.dispose l r).length ≤ l.length := by
  induction l with
  | nil => simp [TSubscription.dispose_nil]
  | cons a l ih =>
    rw [TSubscription.dispose_cons]
    by_cases h : a = r
    · simp [h]
    · simp [h]
      omega

/-- Removing a receiver that is absent from the prefix deletes exactly its
own slot. -/
theorem TSubscription.dispose_append_cons {α : Type} [DecidableEq α]
    (P B : List α) (r : α) (hP : r ∉ P) :
    TSubscription.dispose (P ++ r :: B) r = P ++ B := by
  induction P with
  | nil => simp [TSubscription.dispose_cons]
  | cons a P' ih =>
    have ha : a ≠ r := fun e => hP (e ▸ List.mem_cons_self a P')
    have hP' : r ∉ P' := fun m => hP (List.mem_cons_of_mem a m)
    rw [List.cons_append, TSubscription.dispose_cons, if_neg ha, ih hP',
      List.cons_append]

/-- Effect of one receiver's callback on the live collection. -/
def stepCollection (observers : List Rcv) (r : Rcv) : List Rcv :=
  if r.selfDispose then TSubscription.dispose observers r else observers

theorem stepCollection_length_le (observers : List Rcv) (r : Rcv) :
    (stepCollection observers r).length ≤ observers.length := by
  unfold stepCollection
  by_cases h : r.selfDispose <;> simp [h, TSubscription.dispose_length_le]

/-- The `for`-of pass of `TBaseObservable.publish`/`complete` over the
live array: yield the id at the cursor, run the receiver's callback
(possibly splicing the receiver out), advance the cursor. -/
def TBaseObservable.fanoutLoop (observers : List Rcv) (i : Nat) : List Nat :=
  if h : i < observers.length then
    (observers.get ⟨i, h⟩).id ::
      TBaseObservable.fanoutLoop
        (stepCollection observers (observers.get ⟨i, h⟩)) (i + 1)
  else []
termination_by observers.length - i
decreasing_by
  simp_wf
  have hle := stepCollection_length_le observers (observers.get ⟨i, by omega⟩)
  simp only [List.get_eq_getElem] at hle
  omega

/-- `TBaseObservable.publish`: one delivery pass from cursor 0; the result
is the ids whose `next` ran, in visit order. -/
def TBaseObservable.publish (observers : List Rcv) : List Nat :=
  TBaseObservable.fanoutLoop observers 0

/-- `TBaseObservable.complete`: same fan-out shape with each receiver's
`complete` callback, then `observers.length = 0` empties the array. -/
def TBaseObservable.complete (observers : List Rcv) : List Nat × List Rcv :=
  (TBaseObservable.fanoutLoop observers 0, [])

/-- The element under a cursor that sits right past a prefix. -/
theorem get_append_len (s : Rcv) (S : List Rcv) :
    ∀ (P : List Rcv) (h : P.length < (P ++ s :: S).length),
      (P ++ s :: S).get ⟨P.length, h⟩ = s := by
  intro P
  induction P with
  | nil => intro h; rfl
  | cons a P' ih => intro h; exact ih _

/-- Past the end of the live array the loop stops. -/
theorem TBaseObservable.fanoutLoop_stop (observers : List Rcv) (i : Nat)
    (h : observers.length ≤ i) :
    TBaseObservable.fanoutLoop observers i = [] := by
  rw [TBaseObservable.fanoutLoop.eq_def, dif_neg (by omega)]

/-- One iteration of the loop at the cursor position. -/
theorem TBaseObservable.fanoutLoop_cons (P : List Rcv) (s : Rcv)
    (S : List Rcv) :
    TBaseObservable.fanoutLoop (P ++ s :: S) P.length =
      s.id :: TBaseObservable.fanoutLoop
        (stepCollection (P ++ s :: S) s) (P.length + 1) := by
  have hlen : P.length < (P ++ s :: S).length := by simp
  rw [TBaseObservable.fanoutLoop.eq_def, dif_pos hlen, get_append_len]

/-- A run over a suffix of receivers none of which mutates the collection
visits each of them once, in order. -/
theorem TBaseObservable.fanoutLoop_pure (S : List Rcv) :
    ∀ (P : List Rcv), (∀ x ∈ S, x.selfDispose = false) →
      TBaseObservable.fanoutLoop (P ++ S) P.length = S.map Rcv.id := by
  induction S with
  | nil =>
    intro P _
    exact TBaseObservable.fanoutLoop_stop _ _ (by simp)
  | cons s S' ih =>
    intro P hS
    have hs : s.selfDispose = false := hS s (List.mem_cons_self s S')
    have hS' : ∀ x ∈ S', x.selfDispose = false := fun x hx =>
      hS x (List.mem_cons_of_mem s hx)
    rw [TBaseObservable.fanoutLoop_cons, stepCollection, if_neg (by simp [hs])]
    have hsplit : P ++ s :: S' = (P ++ [s]) ++ S' := by simp
    have hlen : P.length + 1 = (P ++ [s]).length := by simp
    rw [hsplit, hlen, ih (P ++ [s]) hS']
    rfl

/-- A run over a suffix containing exactly one self-disposing receiver:
receivers before it are visited once in order, it is visited itself, the
receiver immediately after it is skipped (the splice shifts it under the
cursor), and every later receiver is visited once in order. -/
theorem TBaseObservable.fanoutLoop_one_disposer (A : List Rcv) :
    ∀ (P : List Rcv) (r : Rcv) (B : List Rcv),
      r.selfDispose = true →
      (∀ x ∈ A, x.selfDispose = false) →
      (∀ x ∈ B, x.selfDispose = false) →
      r ∉ P → r ∉ A →
      TBaseObservable.fanoutLoop (P ++ A ++ r :: B) P.length =
        A.map Rcv.id ++ r.id :: (B.drop 1).map Rcv.id := by
  induction A with
  | nil =>
    intro P r B hr _ hB hrP _
    simp only [List.nil_append, List.append_nil, List.map_nil]
    rw [TBaseObservable.fanoutLoop_cons, stepCollection, if_pos hr,
      TSubscription.dispose_append_cons P B r hrP]
    cases B with
    | nil =>
      rw [TBaseObservable.fanoutLoop_stop _ _ (by simp)]
      rfl
    | cons b B' =>
      have hB' : ∀ x ∈ B', x.selfDispose = false := fun x hx =>
        hB x (List.mem_cons_of_mem b hx)
      have hsplit : P ++ b :: B' = (P ++ [b]) ++ B' := by simp
      have hlen : P.length + 1 = (P ++ [b]).length := by simp
      rw [hsplit, hlen, TBaseObservable.fanoutLoop_pure B' (P ++ [b]) hB']
      rfl
  | cons a A' ih =>
    intro P r B hr hA hB hrP hrA
    have ha : a.selfDispose = false := hA a (List.mem_cons_self a A')
    have hA' : ∀ x ∈ A', x.selfDispose = false := fun x hx =>
      hA x (List.mem_cons_of_mem a hx)
    have hra : r ≠ a := fun e => hrA (e ▸ List.mem_cons_self a A')
    have hrA' : r ∉ A' := fun m => hrA (List.mem_cons_of_mem a m)
    have hflat : P ++ (a :: A') ++ r :: B = P ++ a :: (A' ++ r :: B) := by
      simp
    rw [hflat, TBaseObservable.fanoutLoop_cons, stepCollection,
      if_neg (by simp [ha])]
    have hsplit : P ++ a :: (A' ++ r :: B) = (P ++ [a]) ++ A' ++ r :: B := by
      simp
    have hlen : P.length + 1 = (P ++ [a]).length := by simp
    have hrPa : r ∉ P ++ [a] := by
      intro hm
      rcases List.mem_append.mp hm with hm | hm
      · exact hrP hm
      · exact hra (List.mem_singleton.mp hm)
    rw [hsplit, hlen, ih (P ++ [a]) r B hr hA' hB hrPa hrA']
    rfl

/-! ## Claim C3 -/

/-- C3 counterexample: receivers 1, 2, 3 registered; receiver 2's callback
disposes its own subscription during the pass.  The claim says every other
receiver registered at the start still receives the value exactly once,
but the live `for`-of iteration skips receiver 3: the pass delivers to
`[1, 2]` only. -/
theorem C3_counterexample :
    TBaseObservable.publish [⟨1, false⟩, ⟨2, true⟩, ⟨3, false⟩] = [1, 2] ∧
    3 ∉ TBaseObservable.publish [⟨1, false⟩, ⟨2, true⟩, ⟨3, false⟩] := by
  have h := TBaseObservable.fanoutLoop_one_disposer [⟨1, false⟩] []
    ⟨2, true⟩ [⟨3, false⟩] rfl (by decide) (by decide) (by decide) (by decide)
  constructor
  · simpa [TBaseObservable.publish] using h
  · have he : TBaseObservable.publish [⟨1, false⟩, ⟨2, true⟩, ⟨3, false⟩] =
        [1, 2] := by simpa [TBaseObservable.publish] using h
    rw [he]
    decide

/-- C3 (amended): during a single publish pass in which exactly one
receiver's callback disposes that receiver's own subscription, every peer
before the disposer still receives the value exactly once in order and no
already-visited receiver is revisited; but the peer immediately after the
self-disposing receiver is skipped (the splice shifts it under the
cursor), while every receiver after that one again receives exactly
once. -/
theorem C3_amended (A : List Rcv) (r : Rcv) (B : List Rcv)
    (hr : r.selfDispose = true) (hA : ∀ x ∈ A, x.selfDispose = false)
    (hB : ∀ x ∈ B, x.selfDispose = false) (hrA : r ∉ A) :
    TBaseObservable.publish (A ++ r :: B) =
      A.map Rcv.id ++ r.id :: (B.drop 1).map Rcv.id := by
  have h := TBaseObservable.fanoutLoop_one_disposer A [] r B hr hA hB
    (by simp) hrA
  simpa [TBaseObservable.publish] using h

/-- C3 witness: four receivers, the second self-disposing: the pass
delivers to 1, 2 and 4, skipping 3. -/
theorem C3_witness :
    ((⟨2, true⟩ : Rcv).selfDispose = true ∧
      (∀ x ∈ [(⟨1, false⟩ : Rcv)], x.selfDispose = false) ∧
      (∀ x ∈ [(⟨3, false⟩ : Rcv), ⟨4, false⟩], x.selfDispose = false) ∧
      (⟨2, true⟩ : Rcv) ∉ [(⟨1, false⟩ : Rcv)]) ∧
    TBaseObservable.publish [⟨1, false⟩, ⟨2, true⟩, ⟨3, false⟩, ⟨4, false⟩] =
      [1, 2, 4] := by
  refine ⟨⟨rfl, by decide, by decide, by decide⟩, ?_⟩
  have h := C3_amended [⟨1, false⟩] ⟨2, true⟩ [⟨3, false⟩, ⟨4, false⟩]
    rfl (by decide) (by decide) (by decide)
  simpa using h

/-! ## Claim C5 -/

/-- C5 counterexample: the claim says `complete()` delivers `complete()`
to every currently registered receiver.  With the repository's default
receivers this is false: `TAbstractObserver.complete()` calls
`unsubscribe()`, which splices the receiver out of the live array that
`TBaseObservable.complete` is iterating.  Receivers 1, 2, 3 registered,
receiver 2 holding its own subscription (default behavior): the
completion pass reaches only `[1, 2]` — receiver 3's `complete()` never
runs — even though the collection is cleared afterwards. -/
theorem C5_counterexample :
    (TBaseObservable.complete [⟨1, false⟩, ⟨2, true⟩, ⟨3, false⟩]).1 = [1, 2] ∧
    3 ∉ (TBaseObservable.complete [⟨1, false⟩, ⟨2, true⟩, ⟨3, false⟩]).1 := by
  have h := TBaseObservable.fanoutLoop_one_disposer [⟨1, false⟩] []
    ⟨2, true⟩ [⟨3, false⟩] rfl (by decide) (by decide) (by decide) (by decide)
  have he : (TBaseObservable.complete [⟨1, false⟩, ⟨2, true⟩, ⟨3, false⟩]).1 =
      [1, 2] := by simpa [TBaseObservable.complete] using h
  refine ⟨he, ?_⟩
  rw [he]
  decide

/-- C5 (amended): `emitter.complete()` runs the same live-view pass as
`publish`: when exactly one receiver's `complete` callback disposes its
own subscription (the default `TAbstractObserver` behavior), every
receiver before it receives `complete()` exactly once in insertion order,
the disposer itself is notified, the peer immediately after it is skipped
for the completion pass, and every later receiver is again notified
exactly once; when no callback mutates the collection, every receiver is
notified in insertion order.  In all cases the collection is then cleared
unconditionally, after which every previously issued subscription reports
`isDisposed === true` and a subsequent publish delivers to no
receiver. -/
theorem C5_amended (A : List Rcv) (r : Rcv) (B : List Rcv)
    (hr : r.selfDispose = true) (hA : ∀ x ∈ A, x.selfDispose = false)
    (hB : ∀ x ∈ B, x.selfDispose = false) (hrA : r ∉ A) :
    (TBaseObservable.complete (A ++ r :: B)).1 =
      A.map Rcv.id ++ r.id :: (B.drop 1).map Rcv.id ∧
    (∀ observers : List Rcv,
      (TBaseObservable.complete observers).2 = [] ∧
      TSubscription.isDisposed (TBaseObservable.complete observers).2 = true ∧
      TBaseObservable.publish (TBaseObservable.complete observers).2 = []) ∧
    (∀ observers : List Rcv, (∀ x ∈ observers, x.selfDispose = false) →
      (TBaseObservable.complete observers).1 = observers.map Rcv.id) := by
  refine ⟨?_, ?_, ?_⟩
  · have h := TBaseObservable.fanoutLoop_one_disposer A [] r B hr hA hB
      (by simp) hrA
    simpa [TBaseObservable.complete] using h
  · intro observers
    exact ⟨rfl, rfl, TBaseObservable.fanoutLoop_stop [] 0 (by simp)⟩
  · intro observers h
    have hp := TBaseObservable.fanoutLoop_pure observers [] h
    simpa [TBaseObservable.complete] using hp

/-- C5 witness: four receivers, the second holding its own subscription
(default self-unsubscribe on `complete`): the completion pass notifies 1,
2 and 4, skipping 3, then clears the collection, after which every
subscription reports disposed and publish delivers to nobody. -/
theorem C5_witness :
    ((⟨2, true⟩ : Rcv).selfDispose = true ∧
      (∀ x ∈ [(⟨1, false⟩ : Rcv)], x.selfDispose = false) ∧
      (∀ x ∈ [(⟨3, false⟩ : Rcv), ⟨4, false⟩], x.selfDispose = false) ∧
      (⟨2, true⟩ : Rcv) ∉ [(⟨1, false⟩ : Rcv)]) ∧
    ((TBaseObservable.complete
        [⟨1, false⟩, ⟨2, true⟩, ⟨3, false⟩, ⟨4, false⟩]).1 = [1, 2, 4] ∧
      (TBaseObservable.complete
        [⟨1, false⟩, ⟨2, true⟩, ⟨3, false⟩, ⟨4, false⟩]).2 = [] ∧
      TSubscription.isDisposed
        (TBaseObservable.complete
          [⟨1, false⟩, ⟨2, true⟩, ⟨3, false⟩, ⟨4, false⟩]).2 = true ∧
      TBaseObservable.publish
        (TBaseObservable.complete
          [⟨1, false⟩, ⟨2, true⟩, ⟨3, false⟩, ⟨4, false⟩]).2 = []) := by
  have h := C5_amended [⟨1, false⟩] ⟨2, true⟩ [⟨3, false⟩, ⟨4, false⟩]
    rfl (by decide) (by decide) (by decide)
  refine ⟨⟨rfl, by decide, by decide, by decide⟩, ?_, ?_, ?_, ?_⟩
  · simpa using h.1
  · exact (h.2.1 [⟨1, false⟩, ⟨2, true⟩, ⟨3, false⟩, ⟨4, false⟩]).1
  · exact (h.2.1 [⟨1, false⟩, ⟨2, true⟩, ⟨3, false⟩, ⟨4, false⟩]).2.1
  · exact (h.2.1 [⟨1, false⟩, ⟨2, true⟩, ⟨3, false⟩, ⟨4, false⟩]).2.2

end Patterns
